import Mathlib

/-!
Shallow embedding of the calculator state machine of `src/script.js`.

The script keeps four module-level variables (`currentInput : string`,
`previousValue : number | null`, `operator : "+" | "-" | "*" | "/" | null`,
`justEvaluated : boolean`) and mutates them in the input handlers
`handleDigit`, `handleDot`, `handleOperator`, `handleEquals`, `handleClear`,
`handleDelete`, `handlePercent`, `handleSign`.  DOM plumbing (`render`,
event listeners, `prettyOp`) only reads the state and is not modelled.

Strings are modelled as `List Char`.  JavaScript numbers are modelled in two
refinements:

* the main model (`step`/`run`) uses exact rational arithmetic (`Frac`,
  a normalized numerator/denominator pair) together with a `nan` value for
  the `Number("Error") = NaN` corner; this is exact for every claim whose
  arithmetic stays inside the integers and short decimal fractions, where
  binary64 arithmetic is itself exact;
* a binary64-refined model (`stepD`/`runD`) additionally rounds every
  parse and arithmetic result to the nearest IEEE-754 double
  (round-to-nearest, ties-to-even, 53-bit significand; the values reached
  in the traces studied here are all normal, far from overflow and
  subnormal range) and prints results with the ECMAScript
  shortest-round-trip `ToString(Number)` algorithm.  It is used for the
  claim about floating-point rounding artifacts.
-/

/-! ### Exact rational values (normalized fractions), with NaN -/

/-- A rational number as a normalized pair: numerator `num : ℤ` and
denominator `den : ℕ` (positive and coprime to `num` for every value built
through `Frac.mk'`).  This mirrors the exact value of a JavaScript number. -/
structure Frac where
  num : ℤ
  den : ℕ
deriving DecidableEq

/-- Smart constructor: divide out the gcd, so that equal values have equal
representations and structural equality is value equality. -/
def Frac.mk' (n : ℤ) (d : ℕ) : Frac :=
  let g := Nat.gcd n.natAbs d
  if g = 0 then ⟨0, 1⟩ else ⟨n / (g : ℤ), d / g⟩

def Frac.add (a b : Frac) : Frac :=
  Frac.mk' (a.num * (b.den : ℤ) + b.num * (a.den : ℤ)) (a.den * b.den)

def Frac.sub (a b : Frac) : Frac :=
  Frac.mk' (a.num * (b.den : ℤ) - b.num * (a.den : ℤ)) (a.den * b.den)

def Frac.mul (a b : Frac) : Frac :=
  Frac.mk' (a.num * b.num) (a.den * b.den)

/-- Exact division `a / b` (for `b ≠ 0`; the single call site guards the
zero divisor first, exactly as `compute` in the source does). -/
def Frac.div (a b : Frac) : Frac :=
  Frac.mk' (a.num * (b.den : ℤ) * b.num.sign) (a.den * b.num.natAbs)

def Frac.neg (a : Frac) : Frac := ⟨-a.num, a.den⟩

/-- `a < b` for fractions with positive denominators. -/
def Frac.blt (a b : Frac) : Bool := a.num * (b.den : ℤ) < b.num * (a.den : ℤ)

/-- `|a|`. -/
def Frac.abs (a : Frac) : Frac := if a.num < 0 then ⟨-a.num, a.den⟩ else a

/-- `⌊a⌋` for a nonnegative fraction, as a natural number. -/
def Frac.floorNat (a : Frac) : ℕ := a.num.toNat / a.den

/-- A JavaScript number: either NaN or an exact (finite) value.  `NaN`
arises in the script from `Number("Error")` and then propagates through
arithmetic; infinities cannot arise in the exact model and are omitted. -/
inductive JSNum where
  | nan : JSNum
  | num (x : Frac) : JSNum
deriving DecidableEq

def jsBin (f : Frac → Frac → Frac) : JSNum → JSNum → JSNum
  | JSNum.num a, JSNum.num b => JSNum.num (f a b)
  | _, _ => JSNum.nan

def jsAdd : JSNum → JSNum → JSNum := jsBin Frac.add
def jsSub : JSNum → JSNum → JSNum := jsBin Frac.sub
def jsMul : JSNum → JSNum → JSNum := jsBin Frac.mul
def jsDiv : JSNum → JSNum → JSNum := jsBin Frac.div

def jsNeg : JSNum → JSNum
  | JSNum.nan => JSNum.nan
  | JSNum.num x => JSNum.num x.neg

/-- The JavaScript test `b === 0` (false for NaN). -/
def JSNum.isZero : JSNum → Bool
  | JSNum.nan => false
  | JSNum.num x => x.num = 0

/-! ### Characters, digits and the string helpers of the script -/

def digitChar : ℕ → Char
  | 0 => '0'
  | 1 => '1'
  | 2 => '2'
  | 3 => '3'
  | 4 => '4'
  | 5 => '5'
  | 6 => '6'
  | 7 => '7'
  | 8 => '8'
  | 9 => '9'
  | _ => '?'

/-- The regex class `\d`: exactly the characters `'0'`–`'9'`. -/
def isDigitCh (c : Char) : Bool := 48 ≤ c.toNat && c.toNat ≤ 57

def charVal (c : Char) : ℕ := c.toNat - 48

/-- `normalizeNumberString` (script lines 42–48) strips redundant leading
zeros: the regex `^0+(?=\d)` removes the longest run of leading `'0'`s that
is still followed by a digit. -/
def dropZeros : List Char → List Char
  | [] => []
  | [c] => [c]
  | c :: d :: rest => if c = '0' ∧ isDigitCh d then dropZeros (d :: rest) else c :: d :: rest

def normalizeNumberString (s : List Char) : List Char :=
  if s = ['0'] ∨ s.take 2 = ['0', '.'] then s else dropZeros s

/-- `clampLength` (script lines 51–54): truncate to at most 14 characters
(`max` is never passed explicitly in the script, so the default 14 is
inlined). -/
def clampLength (s : List Char) : List Char :=
  if s.length ≤ 14 then s else s.take 14

/-! ### `Number(string)`: parsing the current input

`inputToNumber` (script line 57) applies `Number` to `currentInput`.  The
strings reachable in the script are decimal literals, optionally signed,
plus junk such as `"Error"`, for which `Number` yields NaN.  (Exponent
literals, whitespace and `"Infinity"` never occur in reachable states and
are not modelled; they would also parse to NaN here.) -/

def digitsVal (l : List Char) : ℕ := l.foldl (fun a c => a * 10 + charVal c) 0

def allDigits (l : List Char) : Bool := l.all isDigitCh

def parseUnsignedStr (l : List Char) : JSNum :=
  let ip := l.takeWhile (fun c => c ≠ '.')
  match l.drop ip.length with
  | [] =>
      if ip ≠ [] ∧ allDigits ip then JSNum.num (Frac.mk' (digitsVal ip) 1)
      else JSNum.nan
  | _ :: fp =>
      if ip = [] ∧ fp = [] then JSNum.nan
      else if allDigits ip ∧ allDigits fp then
        JSNum.num (Frac.mk' (digitsVal ip * 10 ^ fp.length + digitsVal fp) (10 ^ fp.length))
      else JSNum.nan

def parseNumber (l : List Char) : JSNum :=
  match l with
  | [] => JSNum.num ⟨0, 1⟩
  | '-' :: rest => jsNeg (parseUnsignedStr rest)
  | '+' :: rest => parseUnsignedStr rest
  | _ => parseUnsignedStr l

/-! ### `String(number)`: printing results

In the exact model every value the script prints has a terminating decimal
expansion (results pass through `toFixed(10)` first, and `percent` divides
a parsed decimal by 100), and for such values JavaScript `String` prints
exactly the terminating expansion without trailing zeros. -/

def natDigitsGo : ℕ → ℕ → List Char
  | 0, _ => []
  | fuel + 1, n =>
      if n < 10 then [digitChar n]
      else natDigitsGo fuel (n / 10) ++ [digitChar (n % 10)]

def natToDigits (n : ℕ) : List Char := natDigitsGo (n + 1) n

/-- Least `k` with `d ∣ 10 ^ k`, when one exists (that is, when `d` has the
form `2 ^ a * 5 ^ b`; the least such `k` is `max a b ≤ d`, so fuel `d + 1`
always suffices). -/
def decExpGo (d : ℕ) : ℕ → ℕ → Option ℕ
  | _, 0 => none
  | k, fuel + 1 => if 10 ^ k % d = 0 then some k else decExpGo d (k + 1) fuel

def decExp (d : ℕ) : Option ℕ := if d = 0 then none else decExpGo d 0 (d + 1)

/-- Print a nonnegative normalized fraction with terminating decimal
expansion.  Because `decExp` returns the least scaling exponent, the last
printed digit is nonzero, matching the JavaScript output which never has
trailing fractional zeros. -/
def fracToCharsNN (x : Frac) : List Char :=
  match decExp x.den with
  | none => ['?']
  | some k =>
      let n := x.num.toNat * 10 ^ k / x.den
      if k = 0 then natToDigits n
      else
        let ds := natToDigits n
        let pad := (if ds.length < k + 1 then List.replicate (k + 1 - ds.length) '0' else []) ++ ds
        pad.take (pad.length - k) ++ '.' :: pad.drop (pad.length - k)

def fracToChars (x : Frac) : List Char :=
  if x.num < 0 then '-' :: fracToCharsNN ⟨-x.num, x.den⟩ else fracToCharsNN x

def numToChars : JSNum → List Char
  | JSNum.nan => ['N', 'a', 'N']
  | JSNum.num x => fracToChars x

/-- `+result.toFixed(10)` (script lines 122 and 141): round to 10 decimal
places — half away from zero, per `Number.prototype.toFixed` — and convert
back to a number.  In the exact model re-parsing is the identity.  (For
`|x| ≥ 10²¹`, `toFixed` falls back to `ToString(x)` and the round trip is
the identity; such magnitudes are far outside the values the claims
exercise, and this model rounds them like any other value.) -/
def toFixed10 : JSNum → JSNum
  | JSNum.nan => JSNum.nan
  | JSNum.num x =>
      if x.num < 0 then
        JSNum.num (Frac.mk' (-(((-x.num).toNat * 10 ^ 10 * 2 + x.den) / (x.den * 2) : ℕ) : ℤ) (10 ^ 10))
      else
        JSNum.num (Frac.mk' (((x.num.toNat * 10 ^ 10 * 2 + x.den) / (x.den * 2) : ℕ) : ℤ) (10 ^ 10))

/-! ### The calculator state machine -/

/-- The four operator buttons/keys.  The click and keydown listeners only
ever pass `"+"`, `"-"`, `"*"`, `"/"` to `handleOperator`, so the operator
payload is modelled as this four-element type (making the `return b`
fallback of `compute` unreachable). -/
inductive Op where
  | plus : Op
  | minus : Op
  | times : Op
  | div : Op
deriving DecidableEq

/-- `compute` (script lines 62–68); division by zero signals failure with
`null`, modelled as `none`. -/
def compute (a : JSNum) (op : Op) (b : JSNum) : Option JSNum :=
  match op with
  | Op.plus => some (jsAdd a b)
  | Op.minus => some (jsSub a b)
  | Op.times => some (jsMul a b)
  | Op.div => if b.isZero then none else some (jsDiv a b)

/-- The module-level mutable state of the script (lines 14–17). -/
structure CalcState where
  currentInput : List Char
  previousValue : Option JSNum
  operator : Option Op
  justEvaluated : Bool
deriving DecidableEq

def errStr : List Char := ['E', 'r', 'r', 'o', 'r']

/-- The initial state (script lines 14–17). -/
def initState : CalcState :=
  { currentInput := ['0'], previousValue := none, operator := none, justEvaluated := false }

/-- `handleDigit` (script lines 73–89). -/
def handleDigit (d : Char) (s : CalcState) : CalcState :=
  if s.justEvaluated then
    { s with currentInput := [d], justEvaluated := false }
  else
    let ci := if s.currentInput = ['0'] then [d] else clampLength (s.currentInput ++ [d])
    { s with currentInput := normalizeNumberString ci }

/-- `handleDot` (script lines 92–104). -/
def handleDot (s : CalcState) : CalcState :=
  if s.justEvaluated then
    { s with currentInput := ['0', '.'], justEvaluated := false }
  else if s.currentInput.contains '.' then s
  else { s with currentInput := clampLength (s.currentInput ++ ['.']) }

/-- `handleOperator` (script lines 107–129).  Note that in the
divide-by-zero branch the script returns early, leaving `justEvaluated`
untouched (it is necessarily `false` there). -/
def handleOperator (op : Op) (s : CalcState) : CalcState :=
  let currVal := parseNumber s.currentInput
  match s.previousValue, s.operator with
  | none, _ =>
      { currentInput := ['0'], previousValue := some currVal,
        operator := some op, justEvaluated := false }
  | some pv, some pop =>
      if s.justEvaluated then
        { currentInput := ['0'], previousValue := some pv,
          operator := some op, justEvaluated := false }
      else
        match compute pv pop currVal with
        | none =>
            { s with currentInput := errStr, previousValue := none, operator := none }
        | some r =>
            { currentInput := ['0'], previousValue := some (toFixed10 r),
              operator := some op, justEvaluated := false }
  | some pv, none =>
      { currentInput := ['0'], previousValue := some pv,
        operator := some op, justEvaluated := false }

/-- `handleEquals` (script lines 132–149). -/
def handleEquals (s : CalcState) : CalcState :=
  match s.previousValue, s.operator with
  | some pv, some pop =>
      let currVal := parseNumber s.currentInput
      let ci :=
        match compute pv pop currVal with
        | none => errStr
        | some r => numToChars (toFixed10 r)
      { currentInput := ci, previousValue := none, operator := none, justEvaluated := true }
  | _, _ => s

/-- `handleClear` (script lines 152–158). -/
def handleClear (_ : CalcState) : CalcState := initState

/-- `handleDelete` (script lines 161–179). -/
def handleDelete (s : CalcState) : CalcState :=
  if s.justEvaluated then
    { s with currentInput := ['0'], justEvaluated := false }
  else
    let ci :=
      if s.currentInput.length ≤ 1 then ['0']
      else
        let t := s.currentInput.dropLast
        if t.getLast? = some '.' then
          if t.dropLast = [] then ['0'] else t.dropLast
        else t
    { s with currentInput := normalizeNumberString ci }

/-- `handlePercent` (script lines 182–187). -/
def handlePercent (s : CalcState) : CalcState :=
  let val := parseNumber s.currentInput
  { s with currentInput := clampLength (numToChars (jsDiv val (JSNum.num ⟨100, 1⟩))) }

/-- `handleSign` (script lines 190–195). -/
def handleSign (s : CalcState) : CalcState :=
  if s.currentInput = ['0'] then s
  else
    match s.currentInput with
    | '-' :: rest => { s with currentInput := rest }
    | ci => { s with currentInput := '-' :: ci }

/-- The normalized input events forwarded by the click/keydown listeners
(script lines 198–239): digits are single characters matching `\d`, the
operator payload is one of the four operators. -/
inductive Event where
  | digit (d : Fin 10) : Event
  | dot : Event
  | op (o : Op) : Event
  | equals : Event
  | clear : Event
  | del : Event
  | percent : Event
  | sign : Event
deriving DecidableEq

def step (s : CalcState) : Event → CalcState
  | Event.digit d => handleDigit (digitChar d.val) s
  | Event.dot => handleDot s
  | Event.op o => handleOperator o s
  | Event.equals => handleEquals s
  | Event.clear => handleClear s
  | Event.del => handleDelete s
  | Event.percent => handlePercent s
  | Event.sign => handleSign s

/-- Run an event sequence from the default state. -/
def run (es : List Event) : CalcState := es.foldl step initState

/-! ### The binary64 refinement

For the claim about floating-point rounding, numbers are refined to IEEE-754
binary64 doubles: every parse and every arithmetic result is rounded to 53
significant bits (round-to-nearest, ties-to-even), and results are printed
with the shortest-round-trip algorithm of ECMAScript `Number::toString`.
A double is represented by its exact rational value.  Overflow and
subnormals are outside the range of the values handled here and are not
modelled. -/

/-- Number of binary digits of `n` (0 for 0). -/
def bitsGo : ℕ → ℕ → ℕ
  | 0, _ => 0
  | fuel + 1, n => if n = 0 then 0 else 1 + bitsGo fuel (n / 2)

def bits (n : ℕ) : ℕ := bitsGo (n + 1) n

/-- `2 ^ e ≤ x` for a positive fraction `x` and `e : ℤ`. -/
def pow2le (e : ℤ) (x : Frac) : Bool :=
  if 0 ≤ e then x.den * 2 ^ e.toNat ≤ x.num.toNat
  else x.den ≤ x.num.toNat * 2 ^ (-e).toNat

def floorLog2Go (x : Frac) : ℤ → ℕ → ℤ
  | _, 0 => 0
  | e, fuel + 1 => if pow2le e x then e else floorLog2Go x (e - 1) fuel

/-- `⌊log₂ x⌋` for a positive fraction, by downward scan from a safe upper
bound. -/
def floorLog2 (x : Frac) : ℤ :=
  let b := bits x.num.natAbs + bits x.den + 1
  floorLog2Go x (b : ℤ) (2 * b + 2)

/-- Round a nonnegative fraction to the nearest integer, ties to even. -/
def rneNat (x : Frac) : ℕ :=
  let f := x.num.toNat / x.den
  let r2 := 2 * (x.num.toNat % x.den)
  if r2 < x.den then f
  else if x.den < r2 then f + 1
  else if f % 2 = 0 then f else f + 1

def pow2Frac (e : ℤ) : Frac :=
  if 0 ≤ e then ⟨(2 ^ e.toNat : ℕ), 1⟩ else ⟨1, 2 ^ (-e).toNat⟩

/-- Round a positive fraction to the nearest binary64 double (normal
range): scale the significand into `[2^52, 2^53)` and round to nearest,
ties to even. -/
def roundDoublePos (x : Frac) : Frac :=
  let e : ℤ := floorLog2 x - 52
  let m : ℕ := rneNat (x.mul (pow2Frac (-e)))
  if 0 ≤ e then ⟨(m : ℤ) * 2 ^ e.toNat, 1⟩ else Frac.mk' (m : ℤ) (2 ^ (-e).toNat)

def roundDouble (x : Frac) : Frac :=
  if x.num = 0 then ⟨0, 1⟩
  else if x.num < 0 then (roundDoublePos ⟨-x.num, x.den⟩).neg
  else roundDoublePos x

def parseNumberD (l : List Char) : JSNum :=
  match parseNumber l with
  | JSNum.nan => JSNum.nan
  | JSNum.num x => JSNum.num (roundDouble x)

def jsAddD : JSNum → JSNum → JSNum := jsBin (fun a b => roundDouble (a.add b))
def jsSubD : JSNum → JSNum → JSNum := jsBin (fun a b => roundDouble (a.sub b))
def jsMulD : JSNum → JSNum → JSNum := jsBin (fun a b => roundDouble (a.mul b))
def jsDivD : JSNum → JSNum → JSNum := jsBin (fun a b => roundDouble (a.div b))

def computeD (a : JSNum) (op : Op) (b : JSNum) : Option JSNum :=
  match op with
  | Op.plus => some (jsAddD a b)
  | Op.minus => some (jsSubD a b)
  | Op.times => some (jsMulD a b)
  | Op.div => if b.isZero then none else some (jsDivD a b)

/-- `+result.toFixed(10)` in the double model: `toFixed` rounds the exact
value of the double to 10 decimal places, and the unary `+` parses the
decimal string back to the nearest double. -/
def toFixed10D : JSNum → JSNum
  | JSNum.nan => JSNum.nan
  | JSNum.num x =>
      match toFixed10 (JSNum.num x) with
      | JSNum.nan => JSNum.nan
      | JSNum.num y => JSNum.num (roundDouble y)

/-! ECMAScript `Number::toString` (radix 10): choose the fewest digits `k`
and an integer `s` with `10^(k-1) ≤ s < 10^k` such that the double nearest
`s · 10^(n-k)` is the number itself; among candidates with the same `k`
take the one closest to the exact value, ties to the larger `s`. -/

def pow10le (e : ℤ) (x : Frac) : Bool :=
  if 0 ≤ e then x.den * 10 ^ e.toNat ≤ x.num.toNat
  else x.den ≤ x.num.toNat * 10 ^ (-e).toNat

def floorLog10Go (x : Frac) : ℤ → ℕ → ℤ
  | _, 0 => 0
  | e, fuel + 1 => if pow10le e x then e else floorLog10Go x (e - 1) fuel

def floorLog10 (x : Frac) : ℤ :=
  let b := (natToDigits x.num.natAbs).length + (natToDigits x.den).length + 1
  floorLog10Go x (b : ℤ) (2 * b + 2)

def pow10Frac (e : ℤ) : Frac :=
  if 0 ≤ e then ⟨(10 ^ e.toNat : ℕ), 1⟩ else ⟨1, 10 ^ (-e).toNat⟩

/-- The decimal value `s · 10 ^ (n - k)`. -/
def dtsVal (k : ℕ) (s : ℕ) (n : ℤ) : Frac :=
  (Frac.mk' (s : ℤ) 1).mul (pow10Frac (n - (k : ℤ)))

def dtsValid (x : Frac) (k : ℕ) (s : ℕ) (n : ℤ) : Bool :=
  10 ^ (k - 1) ≤ s && s < 10 ^ k && decide (roundDouble (dtsVal k s n) = x)

def dtsErr (x : Frac) (k : ℕ) (p : ℕ × ℤ) : Frac := ((dtsVal k p.1 p.2).sub x).abs

/-- Pick the candidate closest to `x`; on ties the larger digit string. -/
def dtsBest (x : Frac) (k : ℕ) : List (ℕ × ℤ) → Option (ℕ × ℤ)
  | [] => none
  | p :: ps =>
      match dtsBest x k ps with
      | none => some p
      | some q =>
          if (dtsErr x k p).blt (dtsErr x k q) then some p
          else if (dtsErr x k q).blt (dtsErr x k p) then some q
          else if q.1 ≤ p.1 then some p else some q

def dtsForK (x : Frac) (k : ℕ) : Option (ℕ × ℤ) :=
  let n0 := floorLog10 x + 1
  let cand := fun (n : ℤ) =>
    let s0 := (x.mul (pow10Frac ((k : ℤ) - n))).floorNat
    [(s0, n), (s0 + 1, n)]
  dtsBest x k ((cand n0 ++ cand (n0 + 1)).filter fun p => dtsValid x k p.1 p.2)

/-- Shortest digit count first; 17 digits always suffice for binary64. -/
def dtsSearch (x : Frac) : Option (ℕ × ℕ × ℤ) :=
  (List.range 17).findSome? fun i => (dtsForK x (i + 1)).map fun p => (i + 1, p.1, p.2)

/-- Format digits `s` (of count `k`) with decimal exponent `n` following
the case split of ECMAScript `Number::toString`. -/
def dtsFormat (k s : ℕ) (n : ℤ) : List Char :=
  let ds := natToDigits s
  if (k : ℤ) ≤ n ∧ n ≤ 21 then ds ++ List.replicate (n - (k : ℤ)).toNat '0'
  else if 0 < n ∧ n ≤ 21 then ds.take n.toNat ++ '.' :: ds.drop n.toNat
  else if -5 < n ∧ n ≤ 0 then '0' :: '.' :: (List.replicate (-n).toNat '0' ++ ds)
  else
    let em := n - 1
    ds.take 1 ++
      (if 1 < k then '.' :: ds.drop 1 else []) ++
      'e' :: (if 0 ≤ em then '+' :: natToDigits em.toNat else '-' :: natToDigits (-em).toNat)

def doubleToCharsPos (x : Frac) : List Char :=
  match dtsSearch x with
  | some (k, s, n) => dtsFormat k s n
  | none => ['?']

def doubleToChars (x : Frac) : List Char :=
  if x.num = 0 then ['0']
  else if x.num < 0 then '-' :: doubleToCharsPos ⟨-x.num, x.den⟩
  else doubleToCharsPos x

def numToCharsD : JSNum → List Char
  | JSNum.nan => ['N', 'a', 'N']
  | JSNum.num x => doubleToChars x

/-- `handleOperator` in the double model. -/
def handleOperatorD (op : Op) (s : CalcState) : CalcState :=
  let currVal := parseNumberD s.currentInput
  match s.previousValue, s.operator with
  | none, _ =>
      { currentInput := ['0'], previousValue := some currVal,
        operator := some op, justEvaluated := false }
  | some pv, some pop =>
      if s.justEvaluated then
        { currentInput := ['0'], previousValue := some pv,
          operator := some op, justEvaluated := false }
      else
        match computeD pv pop currVal with
        | none =>
            { s with currentInput := errStr, previousValue := none, operator := none }
        | some r =>
            { currentInput := ['0'], previousValue := some (toFixed10D r),
              operator := some op, justEvaluated := false }
  | some pv, none =>
      { currentInput := ['0'], previousValue := some pv,
        operator := some op, justEvaluated := false }

/-- `handleEquals` in the double model. -/
def handleEqualsD (s : CalcState) : CalcState :=
  match s.previousValue, s.operator with
  | some pv, some pop =>
      let currVal := parseNumberD s.currentInput
      let ci :=
        match computeD pv pop currVal with
        | none => errStr
        | some r => numToCharsD (toFixed10D r)
      { currentInput := ci, previousValue := none, operator := none, justEvaluated := true }
  | _, _ => s

/-- `handlePercent` in the double model. -/
def handlePercentD (s : CalcState) : CalcState :=
  let val := parseNumberD s.currentInput
  { s with currentInput := clampLength (numToCharsD (jsDivD val (JSNum.num ⟨100, 1⟩))) }

/-- One event in the double model; the handlers that never touch numbers
are shared with the exact model. -/
def stepD (s : CalcState) : Event → CalcState
  | Event.digit d => handleDigit (digitChar d.val) s
  | Event.dot => handleDot s
  | Event.op o => handleOperatorD o s
  | Event.equals => handleEqualsD s
  | Event.clear => handleClear s
  | Event.del => handleDelete s
  | Event.percent => handlePercentD s
  | Event.sign => handleSign s

def runD (es : List Event) : CalcState := es.foldl stepD initState

/-! ### Predicates used by the claims -/

/-- The `currentInput` shown after a divide-by-zero: the script sets
`currentInput = "Error"` and clears `previousValue` and `operator` in both
`handleOperator` and `handleEquals`. -/
def ErrorState (s : CalcState) : Prop :=
  s.currentInput = errStr ∧ s.previousValue = none ∧ s.operator = none

/-- Events other than `sign` and `equals` (the two handlers that can leave
`currentInput` longer than the 14-character cap). -/
def notSignEquals : Event → Bool
  | Event.sign => false
  | Event.equals => false
  | _ => true

/-- Digit and dot entry events. -/
def isDigitOrDot : Event → Bool
  | Event.digit _ => true
  | Event.dot => true
  | _ => false

/-- Modelled from the spec: the deletion step as the claim words it —
"remove the last character of `currentInput`; if only one character
remained, reset to `\x220\x22`; if the removal leaves a trailing decimal
point, strip it too (falling back to `\x220\x22` if that empties the
string)" — without the re-normalization of leading zeros that the code
performs afterwards. -/
def deleteSpecCI (ci : List Char) : List Char :=
  if ci.length ≤ 1 then ['0']
  else
    let t := ci.dropLast
    if t.getLast? = some '.' then
      if t.dropLast = [] then ['0'] else t.dropLast
    else t

/-! ### Frame lemmas for the handlers -/

theorem handleDigit_pvop (d : Char) (s : CalcState) :
    (handleDigit d s).previousValue = s.previousValue ∧
    (handleDigit d s).operator = s.operator := by
  unfold handleDigit; split <;> exact ⟨rfl, rfl⟩

theorem handleDot_pvop (s : CalcState) :
    (handleDot s).previousValue = s.previousValue ∧
    (handleDot s).operator = s.operator := by
  unfold handleDot; split
  · exact ⟨rfl, rfl⟩
  · split <;> exact ⟨rfl, rfl⟩

theorem handleDelete_pvop (s : CalcState) :
    (handleDelete s).previousValue = s.previousValue ∧
    (handleDelete s).operator = s.operator := by
  unfold handleDelete; split <;> exact ⟨rfl, rfl⟩

theorem handlePercent_frame (s : CalcState) :
    (handlePercent s).previousValue = s.previousValue ∧
    (handlePercent s).operator = s.operator ∧
    (handlePercent s).justEvaluated = s.justEvaluated :=
  ⟨rfl, rfl, rfl⟩

theorem handleSign_frame (s : CalcState) :
    (handleSign s).previousValue = s.previousValue ∧
    (handleSign s).operator = s.operator ∧
    (handleSign s).justEvaluated = s.justEvaluated := by
  unfold handleSign; split
  · exact ⟨rfl, rfl, rfl⟩
  · split <;> exact ⟨rfl, rfl, rfl⟩

/-! ### The claims -/

/-- C1: from the default state, `digit "2"`, `operator "+"`, `digit "3"`,
`operator "*"`, `digit "4"`, `equals` leaves `currentInput = "20"`:
operators chain left to right with no precedence, each operator press
first folding the pending operation into `previousValue` (after `*` is
pressed the pending value is `(2+3) = 5`). -/
theorem c1_chained_operators :
    (run [Event.digit 2, Event.op Op.plus, Event.digit 3, Event.op Op.times,
      Event.digit 4, Event.equals]).currentInput = ['2', '0'] ∧
    (run [Event.digit 2, Event.op Op.plus, Event.digit 3,
      Event.op Op.times]).previousValue = some (JSNum.num ⟨5, 1⟩) ∧
    (run [Event.digit 2, Event.op Op.plus, Event.digit 3,
      Event.op Op.times]).operator = some Op.times := by
  decide

/-- C3: from the default state, `digit "5"`, `operator "/"`, `digit "0"`,
`equals` leaves `currentInput = "Error"` with `previousValue` and
`operator` cleared; `compute` signals the zero divisor with `none`
(the script's `null`), which `handleEquals` absorbs at the call site. -/
theorem c3_divide_by_zero :
    (run [Event.digit 5, Event.op Op.div, Event.digit 0, Event.equals]).currentInput
      = errStr ∧
    (run [Event.digit 5, Event.op Op.div, Event.digit 0, Event.equals]).previousValue
      = none ∧
    (run [Event.digit 5, Event.op Op.div, Event.digit 0, Event.equals]).operator
      = none ∧
    compute (JSNum.num ⟨5, 1⟩) Op.div (JSNum.num ⟨0, 1⟩) = none := by
  decide

/-- C8 (binary64 model): entering `0.1`, `+`, `0.2`, `=` displays exactly
`"0.3"`: the sum of the doubles nearest `0.1` and `0.2` is the double
`1351079888211149 / 2^52 = 0.300000000000000044…`, and `toFixed(10)`
rounds that artifact away before the result is reparsed and printed. -/
theorem c8_float_rounding :
    (runD [Event.dot, Event.digit 1, Event.op Op.plus, Event.dot, Event.digit 2,
      Event.equals]).currentInput = ['0', '.', '3'] ∧
    jsAddD (parseNumberD ['0', '.', '1']) (parseNumberD ['0', '.', '2'])
      = JSNum.num ⟨1351079888211149, 4503599627370496⟩ := by
  decide

/-- C10: `handlePercent` and `handleSign` modify only `currentInput`,
never `previousValue`, `operator` or `justEvaluated`; consequently right
after `equals` (e.g. `5 + 3 =`, showing `"8"`), `percent` (showing
`"0.08"`) leaves `justEvaluated` set, so a following digit starts a fresh
input and discards the adjusted value — and likewise after `sign`. -/
theorem c10_percent_sign_frame :
    (∀ s : CalcState,
      (handlePercent s).previousValue = s.previousValue ∧
      (handlePercent s).operator = s.operator ∧
      (handlePercent s).justEvaluated = s.justEvaluated ∧
      (handleSign s).previousValue = s.previousValue ∧
      (handleSign s).operator = s.operator ∧
      (handleSign s).justEvaluated = s.justEvaluated) ∧
    (run [Event.digit 5, Event.op Op.plus, Event.digit 3, Event.equals,
      Event.percent]).currentInput = ['0', '.', '0', '8'] ∧
    (run [Event.digit 5, Event.op Op.plus, Event.digit 3, Event.equals,
      Event.percent]).justEvaluated = true ∧
    (run [Event.digit 5, Event.op Op.plus, Event.digit 3, Event.equals,
      Event.percent, Event.digit 2]).currentInput = ['2'] ∧
    (run [Event.digit 5, Event.op Op.plus, Event.digit 3, Event.equals,
      Event.sign, Event.digit 2]).currentInput = ['2'] := by
  refine ⟨fun s => ?_, by decide, by decide, by decide, by decide⟩
  obtain ⟨h1, h2, h3⟩ := handlePercent_frame s
  obtain ⟨h4, h5, h6⟩ := handleSign_frame s
  exact ⟨h1, h2, h3, h4, h5, h6⟩

/-- C2, counterexample: after fourteen `digit "9"` presses
(`currentInput = "99999999999999"`, exactly at the cap) a single `sign`
press prepends `'-'` without re-clamping, leaving 15 characters. -/
theorem c2_counterexample :
    (run (List.replicate 14 (Event.digit 9) ++ [Event.sign])).currentInput.length = 15 := by
  decide

/-- C4, counterexample: the Error state is not sticky.  After
`5 / 0 =` the display is `"Error"`, but a following `digit "7"` (with
`justEvaluated` still set by `handleEquals`) replaces it with `"7"`. -/
theorem c4_counterexample :
    (run [Event.digit 5, Event.op Op.div, Event.digit 0, Event.equals]).currentInput
      = errStr ∧
    (run [Event.digit 5, Event.op Op.div, Event.digit 0, Event.equals,
      Event.digit 7]).currentInput = ['7'] := by
  decide

/-- C6, counterexample: the sequence `dot`, `digit "5"`, `sign`, `delete`,
`digit "7"`, `sign` reaches `currentInput = "07"` (via `"0.5"`, `"-0.5"`,
`"-0"`, `"-07"`), which begins with `'0'` yet is neither `"0"` nor a
`"0."`-prefixed string: `handleSign` does not re-normalize. -/
theorem c6_counterexample :
    (run [Event.dot, Event.digit 5, Event.sign, Event.del, Event.digit 7,
      Event.sign]).currentInput = ['0', '7'] ∧
    (run [Event.dot, Event.digit 5, Event.sign, Event.del, Event.digit 7,
      Event.sign]).currentInput ≠ ['0'] ∧
    (run [Event.dot, Event.digit 5, Event.sign, Event.del, Event.digit 7,
      Event.sign]).currentInput.take 2 ≠ ['0', '.'] := by
  decide

/-- C7, counterexample: in the reachable state with
`currentInput = "071"` and `justEvaluated = false`, `delete` does not just
remove the last character (which would leave `"07"`, as `deleteSpecCI`
says): the handler re-normalizes leading zeros and yields `"7"`. -/
theorem c7_counterexample :
    (run [Event.dot, Event.digit 5, Event.sign, Event.del, Event.digit 7,
      Event.digit 1, Event.sign]).currentInput = ['0', '7', '1'] ∧
    (run [Event.dot, Event.digit 5, Event.sign, Event.del, Event.digit 7,
      Event.digit 1, Event.sign]).justEvaluated = false ∧
    deleteSpecCI ['0', '7', '1'] = ['0', '7'] ∧
    (run [Event.dot, Event.digit 5, Event.sign, Event.del, Event.digit 7,
      Event.digit 1, Event.sign, Event.del]).currentInput = ['7'] := by
  decide

/-- C9, counterexample: with `previousValue = 10⁻¹¹` (entered as
`"0.00000000001"`) and `+` pending, a second `+` press stores not
`compute(previousValue, "+", 0) = 10⁻¹¹` but its `toFixed(10)` rounding,
which is `0`. -/
theorem c9_counterexample :
    (run ([Event.dot] ++ List.replicate 10 (Event.digit 0) ++
      [Event.digit 1, Event.op Op.plus])).previousValue
        = some (JSNum.num ⟨1, 100000000000⟩) ∧
    compute (JSNum.num ⟨1, 100000000000⟩) Op.plus (JSNum.num ⟨0, 1⟩)
      = some (JSNum.num ⟨1, 100000000000⟩) ∧
    (run ([Event.dot] ++ List.replicate 10 (Event.digit 0) ++
      [Event.digit 1, Event.op Op.plus, Event.op Op.plus])).previousValue
        = some (JSNum.num ⟨0, 1⟩) ∧
    JSNum.num (⟨1, 100000000000⟩ : Frac) ≠ JSNum.num ⟨0, 1⟩ := by
  decide

/-! ### C5: the operator/previousValue invariant -/

/-- Invariance of a state predicate along `run`. -/
theorem run_invariant (P : CalcState → Prop) (h0 : P initState)
    (hstep : ∀ s e, P s → P (step s e)) (es : List Event) : P (run es) := by
  have h : ∀ (l : List Event) (s : CalcState), P s → P (l.foldl step s) := by
    intro l
    induction l with
    | nil => intro s hs; exact hs
    | cons e t ih => intro s hs; exact ih _ (hstep _ _ hs)
  exact h es _ h0

theorem c5_step (s : CalcState) (e : Event)
    (h : s.operator.isSome → s.previousValue.isSome) :
    (step s e).operator.isSome → (step s e).previousValue.isSome := by
  cases e with
  | digit d =>
      have hf := handleDigit_pvop (digitChar d.val) s
      simpa only [step, hf.1, hf.2] using h
  | dot =>
      have hf := handleDot_pvop s
      simpa only [step, hf.1, hf.2] using h
  | op o =>
      simp only [step]
      unfold handleOperator
      rcases s.previousValue with _ | pv <;> rcases hop : s.operator with _ | pop <;>
        simp only []
      · simp
      · simp
      · simp
      · split
        · simp
        · split <;> simp
  | equals =>
      simp only [step]
      unfold handleEquals
      rcases hpv : s.previousValue with _ | pv <;> rcases hop : s.operator with _ | pop <;>
        simp only []
      · simp [hpv, hop]
      · exact absurd (h (by rw [hop]; rfl)) (by rw [hpv]; simp)
      · simp [hpv, hop]
      · simp
  | clear => simp [step, handleClear, initState]
  | del =>
      have hf := handleDelete_pvop s
      simpa only [step, hf.1, hf.2] using h
  | percent =>
      have hf := handlePercent_frame s
      simpa only [step, hf.1, hf.2.1] using h
  | sign =>
      have hf := handleSign_frame s
      simpa only [step, hf.1, hf.2.1] using h

/-- C5: in every state reachable from the default state, if `operator` is
set then `previousValue` is set: an operator is never pending without a
pending operand. -/
theorem c5_operator_implies_previous (es : List Event) :
    (run es).operator.isSome → (run es).previousValue.isSome := by
  exact run_invariant (fun s => s.operator.isSome → s.previousValue.isSome)
    (by simp [initState]) c5_step es

/-- Witness for C5 at the concrete sequence `5`, `+`. -/
theorem c5_witness :
    (run [Event.digit 5, Event.op Op.plus]).previousValue.isSome := by
  exact c5_operator_implies_previous [Event.digit 5, Event.op Op.plus] (by decide)

/-- C4 as amended: while `currentInput = "Error"` (with `previousValue`
and `operator` cleared, as every divide-by-zero leaves them), `clear`
resets to the default state and `equals` is a no-op, but other events need
not preserve the Error display: in particular, after an equals-induced
Error (`justEvaluated = true`) a digit starts a fresh input. -/
theorem c4_amended (s : CalcState) (h : ErrorState s) :
    handleClear s = initState ∧
    handleEquals s = s ∧
    (s.justEvaluated = true →
      ∀ d : Fin 10, (handleDigit (digitChar d.val) s).currentInput = [digitChar d.val]) := by
  obtain ⟨hci, hpv, hop⟩ := h
  refine ⟨rfl, ?_, ?_⟩
  · unfold handleEquals
    rw [hpv]
  · intro hje d
    unfold handleDigit
    rw [hje]
    simp

/-- Witness for C4's amendment at the Error state reached by `5 / 0 =`. -/
theorem c4_amended_witness :
    handleClear (run [Event.digit 5, Event.op Op.div, Event.digit 0, Event.equals])
      = initState ∧
    handleEquals (run [Event.digit 5, Event.op Op.div, Event.digit 0, Event.equals])
      = run [Event.digit 5, Event.op Op.div, Event.digit 0, Event.equals] ∧
    (handleDigit (digitChar (7 : Fin 10).val)
      (run [Event.digit 5, Event.op Op.div, Event.digit 0, Event.equals])).currentInput
      = [digitChar (7 : Fin 10).val] := by
  have h := c4_amended
    (run [Event.digit 5, Event.op Op.div, Event.digit 0, Event.equals])
    ⟨by decide, by decide, by decide⟩
  exact ⟨h.1, h.2.1, h.2.2 (by decide) 7⟩

/-- C9 as amended: from a state with a pending operand and operator, fresh
`currentInput = "0"` and `justEvaluated = false` (the state right after an
operator press), a second operator press folds the pending operation with
`0` as second operand — storing the `toFixed(10)` rounding of
`compute(previousValue, op, 0)` as the new `previousValue` (not the raw
`compute` result), and entering the Error state when that operation is a
division by zero.  So `5 * +` makes `previousValue` `0`, and `5 / /`
shows `"Error"`. -/
theorem c9_amended :
    (∀ (s : CalcState) (v : JSNum) (o op2 : Op),
      s.previousValue = some v → s.operator = some o → s.justEvaluated = false →
      s.currentInput = ['0'] →
      handleOperator op2 s =
        match compute v o (JSNum.num ⟨0, 1⟩) with
        | none => { s with currentInput := errStr, previousValue := none, operator := none }
        | some r =>
            { currentInput := ['0'], previousValue := some (toFixed10 r),
              operator := some op2, justEvaluated := false }) ∧
    (run [Event.digit 5, Event.op Op.times, Event.op Op.plus]).previousValue
      = some (JSNum.num ⟨0, 1⟩) ∧
    (run [Event.digit 5, Event.op Op.div, Event.op Op.div]).currentInput = errStr := by
  refine ⟨?_, by decide, by decide⟩
  intro s v o op2 hpv hop hje hci
  have hp : parseNumber ['0'] = JSNum.num ⟨0, 1⟩ := by decide
  unfold handleOperator
  rw [hci, hp, hpv, hop, hje]
  simp

/-- Witness for C9's amendment: a second operator press after `5 *`. -/
theorem c9_amended_witness :
    handleOperator Op.plus
        { currentInput := ['0'], previousValue := some (JSNum.num ⟨5, 1⟩),
          operator := some Op.times, justEvaluated := false }
      = { currentInput := ['0'], previousValue := some (toFixed10 (JSNum.num ⟨0, 1⟩)),
          operator := some Op.plus, justEvaluated := false } := by
  have h := c9_amended.1
    { currentInput := ['0'], previousValue := some (JSNum.num ⟨5, 1⟩),
      operator := some Op.times, justEvaluated := false }
    (JSNum.num ⟨5, 1⟩) Op.times Op.plus rfl rfl rfl rfl
  have h2 : compute (JSNum.num ⟨5, 1⟩) Op.times (JSNum.num ⟨0, 1⟩)
      = some (JSNum.num ⟨0, 1⟩) := by decide
  rw [h2] at h
  exact h

/-! ### C2: the length cap -/

theorem dropZeros_sublist (l : List Char) : List.Sublist (dropZeros l) l := by
  induction l with
  | nil => simp [dropZeros]
  | cons a t ih =>
      cases t with
      | nil => simp [dropZeros]
      | cons b t2 =>
          rw [dropZeros]
          split
          · exact List.Sublist.cons a ih
          · exact List.Sublist.refl _

theorem normalizeNumberString_sublist (s : List Char) :
    List.Sublist (normalizeNumberString s) s := by
  unfold normalizeNumberString
  split
  · exact List.Sublist.refl _
  · exact dropZeros_sublist s

theorem normalizeNumberString_length_le (s : List Char) :
    (normalizeNumberString s).length ≤ s.length :=
  (normalizeNumberString_sublist s).length_le

theorem clampLength_length_le (s : List Char) : (clampLength s).length ≤ 14 := by
  unfold clampLength
  split
  · assumption
  · simp

/-- Invariance of a state predicate along `run`, for event sequences drawn
from a subset of the events. -/
theorem run_invariant_on (P : CalcState → Prop) (Q : Event → Bool) (h0 : P initState)
    (hstep : ∀ s e, Q e = true → P s → P (step s e)) (es : List Event)
    (hq : ∀ e ∈ es, Q e = true) : P (run es) := by
  have h : ∀ (l : List Event) (s : CalcState), P s → (∀ e ∈ l, Q e = true) →
      P (l.foldl step s) := by
    intro l
    induction l with
    | nil => intro s hs _; exact hs
    | cons e t ih =>
        intro s hs hl
        exact ih _ (hstep _ _ (hl e (List.mem_cons_self e t)) hs)
          (fun x hx => hl x (List.mem_cons_of_mem e hx))
  exact h es _ h0 hq

theorem c2_step (s : CalcState) (e : Event) (hq : notSignEquals e = true)
    (h : s.currentInput.length ≤ 14) : (step s e).currentInput.length ≤ 14 := by
  cases e with
  | digit d =>
      simp only [step]
      unfold handleDigit
      split
      · simp
      · simp only []
        refine le_trans (normalizeNumberString_length_le _) ?_
        split
        · simp
        · exact clampLength_length_le _
  | dot =>
      simp only [step]
      unfold handleDot
      split
      · simp
      · split
        · exact h
        · simp only []
          exact clampLength_length_le _
  | op o =>
      simp only [step]
      unfold handleOperator
      rcases s.previousValue with _ | pv <;> rcases s.operator with _ | pop <;> simp only []
      · simp
      · simp
      · simp
      · split
        · simp
        · split <;> simp [errStr]
  | equals => simp [notSignEquals] at hq
  | clear => simp [step, handleClear, initState]
  | del =>
      simp only [step]
      unfold handleDelete
      split
      · simp
      · simp only []
        refine le_trans (normalizeNumberString_length_le _) ?_
        split
        · simp
        · split
          · split
            · simp
            · simp only [List.length_dropLast]
              omega
          · simp only [List.length_dropLast]
            omega
  | percent =>
      simp only [step]
      unfold handlePercent
      simp only []
      exact clampLength_length_le _
  | sign => simp [notSignEquals] at hq

/-- C2 as amended: in every state reachable from the default state by a
sequence of digit, dot, operator, clear, delete and percent events — that
is, excluding `sign` (which prepends `'-'` without re-clamping) and
`equals` (which installs the formatted result without clamping) — the
length of `currentInput` is at most 14 characters. -/
theorem c2_amended (es : List Event) (h : ∀ e ∈ es, notSignEquals e = true) :
    (run es).currentInput.length ≤ 14 :=
  run_invariant_on _ notSignEquals (by simp [initState]) c2_step es h

/-- Witness for C2's amendment at a concrete sequence. -/
theorem c2_amended_witness : (run [Event.digit 9, Event.dot]).currentInput.length ≤ 14 :=
  c2_amended [Event.digit 9, Event.dot] (by decide)

/-! ### C7: the delete behavior -/

theorem handleDelete_je (s : CalcState) (h : s.justEvaluated = false) :
    (handleDelete s).justEvaluated = false := by
  unfold handleDelete
  rw [h]
  simp

theorem handleDelete_len (s : CalcState) (h : s.justEvaluated = false) :
    (handleDelete s).currentInput.length ≤ max 1 (s.currentInput.length - 1) := by
  unfold handleDelete
  rw [h]
  simp only [Bool.false_eq_true, if_false]
  refine le_trans (normalizeNumberString_length_le _) ?_
  split
  · simp
  · split
    · split
      · simp
      · simp only [List.length_dropLast]
        omega
    · simp only [List.length_dropLast]
      omega

theorem delete_iter (n : ℕ) : ∀ s : CalcState, s.justEvaluated = false →
    s.currentInput.length ≤ n + 1 → ((handleDelete)^[n + 1] s).currentInput = ['0'] := by
  induction n with
  | zero =>
      intro s hje hl
      rw [Function.iterate_one]
      unfold handleDelete
      rw [hje]
      simp only [Bool.false_eq_true, if_false]
      rw [if_pos hl]
      simp [normalizeNumberString]
  | succ n ih =>
      intro s hje hl
      rw [Function.iterate_succ_apply]
      refine ih _ (handleDelete_je s hje) ?_
      have hlen := handleDelete_len s hje
      omega

/-- C7 as amended: for every state with `justEvaluated = false`, `delete`
performs exactly the removal described by the claim (`deleteSpecCI`:
remove the last character, reset to `"0"` from one character, strip a
trailing decimal point, fall back to `"0"` on empty) *followed by the
re-normalization of leading zeros*; and repeated `delete` eventually
yields `"0"` (after at most `length + 1` presses). -/
theorem c7_amended (s : CalcState) (h : s.justEvaluated = false) :
    (handleDelete s).currentInput = normalizeNumberString (deleteSpecCI s.currentInput) ∧
    ((handleDelete)^[s.currentInput.length + 1] s).currentInput = ['0'] := by
  constructor
  · unfold handleDelete deleteSpecCI
    rw [h]
    simp
  · exact delete_iter s.currentInput.length s h (by omega)

/-- Witness for C7's amendment at the state showing `"12."`: deletion
yields `"12"`, and four presses reach `"0"`. -/
theorem c7_amended_witness :
    ((handleDelete { currentInput := ['1', '2', '.'], previousValue := none,
                     operator := none, justEvaluated := false }).currentInput
      = normalizeNumberString (deleteSpecCI ['1', '2', '.']) ∧
    ((handleDelete)^[['1', '2', '.'].length + 1]
      { currentInput := ['1', '2', '.'], previousValue := none,
        operator := none, justEvaluated := false }).currentInput = ['0']) ∧
    normalizeNumberString (deleteSpecCI ['1', '2', '.']) = ['1', '2'] :=
  ⟨c7_amended { currentInput := ['1', '2', '.'], previousValue := none,
                operator := none, justEvaluated := false } rfl, by decide⟩

/-! ### C6: decimal-point and leading-zero canonicity -/

theorem digitChar_ne_dot (k : ℕ) : digitChar k ≠ '.' := by
  unfold digitChar
  split <;> decide

theorem count_natDigitsGo (fuel : ℕ) : ∀ n : ℕ, (natDigitsGo fuel n).count '.' = 0 := by
  induction fuel with
  | zero => intro n; simp [natDigitsGo]
  | succ fuel ih =>
      intro n
      rw [natDigitsGo]
      split
      · simp [List.count_cons, digitChar_ne_dot n]
      · rw [List.count_append]
        simp [ih, List.count_cons, digitChar_ne_dot (n % 10)]

theorem count_natToDigits (n : ℕ) : (natToDigits n).count '.' = 0 :=
  count_natDigitsGo _ _

theorem count_split_dot (l : List Char) (h : l.count '.' = 0) (i : ℕ) :
    ((l.take i) ++ '.' :: l.drop i).count '.' ≤ 1 := by
  rw [List.count_append, List.count_cons]
  have h1 : (l.take i).count '.' ≤ 0 := h ▸ (List.take_sublist i l).count_le '.'
  have h2 : (l.drop i).count '.' ≤ 0 := h ▸ (List.drop_sublist i l).count_le '.'
  simp only [show (('.' : Char) == ('.' : Char)) = true from rfl, if_true]
  omega

theorem count_fracToCharsNN_le (x : Frac) : (fracToCharsNN x).count '.' ≤ 1 := by
  unfold fracToCharsNN
  rcases hd : decExp x.den with _ | k
  · simp
  · simp only []
    split
    · simp [count_natToDigits]
    · apply count_split_dot
      rw [List.count_append]
      have hrep : ∀ m : ℕ, (List.replicate m '0').count '.' = 0 := by
        intro m; simp [List.count_replicate]
      split <;> simp [hrep, count_natToDigits]

theorem count_fracToChars_le (x : Frac) : (fracToChars x).count '.' ≤ 1 := by
  unfold fracToChars
  split
  · rw [List.count_cons]
    have := count_fracToCharsNN_le ⟨-x.num, x.den⟩
    simp only [show (('-' : Char) == ('.' : Char)) = false from rfl, Bool.false_eq_true,
      if_false]
    omega
  · exact count_fracToCharsNN_le x

theorem count_numToChars_le (v : JSNum) : (numToChars v).count '.' ≤ 1 := by
  cases v with
  | nan => simp [numToChars]
  | num x => exact count_fracToChars_le x

theorem clampLength_sublist (s : List Char) : List.Sublist (clampLength s) s := by
  unfold clampLength
  split
  · exact List.Sublist.refl _
  · exact List.take_sublist 14 s

theorem c6_count_step (s : CalcState) (e : Event) (h : s.currentInput.count '.' ≤ 1) :
    (step s e).currentInput.count '.' ≤ 1 := by
  cases e with
  | digit d =>
      simp only [step]
      unfold handleDigit
      split
      · simp [List.count_cons, digitChar_ne_dot d.val]
      · simp only []
        refine le_trans ((normalizeNumberString_sublist _).count_le _) ?_
        split
        · simp [List.count_cons, digitChar_ne_dot d.val]
        · refine le_trans ((clampLength_sublist _).count_le _) ?_
          rw [List.count_append]
          simpa [List.count_cons, digitChar_ne_dot d.val] using h
  | dot =>
      simp only [step]
      unfold handleDot
      split
      · simp [List.count_cons]
      · split
        · exact h
        · simp only []
          refine le_trans ((clampLength_sublist _).count_le _) ?_
          rw [List.count_append]
          have hnm : ('.' : Char) ∉ s.currentInput := by
            rename_i hcont
            simp only [Bool.not_eq_true] at hcont
            simpa using hcont
          have h0 : s.currentInput.count '.' = 0 := List.count_eq_zero.mpr hnm
          simp [h0, List.count_cons]
  | op o =>
      simp only [step]
      unfold handleOperator
      rcases s.previousValue with _ | pv <;> rcases s.operator with _ | pop <;> simp only []
      · simp [List.count_cons]
      · simp [List.count_cons]
      · simp [List.count_cons]
      · split
        · simp [List.count_cons]
        · split <;> simp [List.count_cons, errStr]
  | equals =>
      simp only [step]
      unfold handleEquals
      rcases s.previousValue with _ | pv <;> rcases s.operator with _ | pop <;> simp only []
      · exact h
      · exact h
      · exact h
      · split
        · simp [errStr]
        · exact count_numToChars_le _
  | clear => simp [step, handleClear, initState]
  | del =>
      simp only [step]
      unfold handleDelete
      split
      · simp [List.count_cons]
      · simp only []
        refine le_trans ((normalizeNumberString_sublist _).count_le _) ?_
        split
        · simp [List.count_cons]
        · split
          · split
            · simp [List.count_cons]
            · refine le_trans (((List.dropLast_sublist _).trans
                (List.dropLast_sublist _)).count_le _) h
          · refine le_trans ((List.dropLast_sublist _).count_le _) h
  | percent =>
      simp only [step]
      unfold handlePercent
      simp only []
      exact le_trans ((clampLength_sublist _).count_le _) (count_numToChars_le _)
  | sign =>
      simp only [step]
      unfold handleSign
      split
      · exact h
      · split
        · rename_i rest hci
          rw [hci, List.count_cons] at h
          show List.count '.' rest ≤ 1
          omega
        · show List.count '.' ('-' :: _) ≤ 1
          rw [List.count_cons]
          simp only [show (('-' : Char) == ('.' : Char)) = false from rfl, Bool.false_eq_true,
            if_false]
          omega

theorem dropZeros_head_ne (c : Char) (l : List Char) (h : c ≠ '0') :
    dropZeros (c :: l) = c :: l := by
  cases l with
  | nil => simp [dropZeros]
  | cons b t =>
      simp only [dropZeros]
      rw [if_neg (fun hh => h hh.1)]

theorem normalizeNumberString_head_ne (c : Char) (l : List Char) (h : c ≠ '0') :
    normalizeNumberString (c :: l) = c :: l := by
  unfold normalizeNumberString
  split
  · rfl
  · exact dropZeros_head_ne c l h

theorem normalizeNumberString_zeroDot (l : List Char) :
    normalizeNumberString ('0' :: '.' :: l) = '0' :: '.' :: l := by
  unfold normalizeNumberString
  rw [if_pos]
  right
  rfl

theorem normalizeNumberString_singleton (c : Char) : normalizeNumberString [c] = [c] := by
  unfold normalizeNumberString
  split
  · rfl
  · simp [dropZeros]

theorem clampLength_cons (c : Char) (l : List Char) :
    ∃ l2, clampLength (c :: l) = c :: l2 := by
  unfold clampLength
  split
  · exact ⟨l, rfl⟩
  · exact ⟨l.take 13, by simp [List.take_succ_cons]⟩

theorem clampLength_cons2 (c d : Char) (l : List Char) :
    ∃ l2, clampLength (c :: d :: l) = c :: d :: l2 := by
  unfold clampLength
  split
  · exact ⟨l, rfl⟩
  · exact ⟨l.take 12, by simp [List.take_succ_cons]⟩

theorem handleDigit_ci (d : Char) (s : CalcState) (hje : s.justEvaluated = false) :
    (handleDigit d s).currentInput =
      normalizeNumberString (if s.currentInput = ['0'] then [d]
        else clampLength (s.currentInput ++ [d])) ∧
    (handleDigit d s).justEvaluated = false := by
  unfold handleDigit
  rw [hje]
  simp

theorem handleDot_no (s : CalcState) (hje : s.justEvaluated = false)
    (hc : (s.currentInput.contains '.') = false) :
    (handleDot s).currentInput = clampLength (s.currentInput ++ ['.']) ∧
    (handleDot s).justEvaluated = false := by
  unfold handleDot
  rw [hje, hc]
  simp

/-- The leading-zero canonicity step for a fresh digit, as a statement
about input strings. -/
theorem canonDigit (ci : List Char) (d : Char) (hne : ci ≠ [])
    (hhead : ci.head? = some '0' → ci = ['0'] ∨ ci.take 2 = ['0', '.']) :
    normalizeNumberString (if ci = ['0'] then [d] else clampLength (ci ++ [d])) ≠ [] ∧
    ((normalizeNumberString (if ci = ['0'] then [d]
        else clampLength (ci ++ [d]))).head? = some '0' →
      normalizeNumberString (if ci = ['0'] then [d] else clampLength (ci ++ [d])) = ['0'] ∨
      (normalizeNumberString (if ci = ['0'] then [d]
        else clampLength (ci ++ [d]))).take 2 = ['0', '.']) := by
  by_cases h0 : ci = ['0']
  · rw [if_pos h0, normalizeNumberString_singleton]
    refine ⟨by simp, ?_⟩
    intro hh
    simp only [List.head?_cons, Option.some.injEq] at hh
    left
    rw [hh]
  · rw [if_neg h0]
    obtain ⟨c, t, hct⟩ := List.exists_cons_of_ne_nil hne
    by_cases hc : c = '0'
    · rcases hhead (by rw [hct, hc]; rfl) with h1 | h2
      · exact absurd h1 h0
      · have ht : ∃ t2, t = '.' :: t2 := by
          rw [hct] at h2
          cases t with
          | nil => simp at h2
          | cons b t2 =>
              simp only [List.take_succ_cons, List.take, List.cons.injEq] at h2
              exact ⟨t2, by rw [h2.2.1]⟩
        obtain ⟨t2, ht2⟩ := ht
        rw [hct, ht2, hc]
        obtain ⟨l2, hcl⟩ := clampLength_cons2 '0' '.' (t2 ++ [d])
        rw [show ('0' :: '.' :: t2) ++ [d] = '0' :: '.' :: (t2 ++ [d]) from rfl, hcl,
          normalizeNumberString_zeroDot]
        exact ⟨by simp, fun _ => Or.inr rfl⟩
    · rw [hct]
      obtain ⟨l2, hcl⟩ := clampLength_cons c (t ++ [d])
      rw [show (c :: t) ++ [d] = c :: (t ++ [d]) from rfl, hcl,
        normalizeNumberString_head_ne c l2 hc]
      refine ⟨by simp, ?_⟩
      intro hh
      simp only [List.head?_cons, Option.some.injEq] at hh
      exact absurd hh hc

/-- The leading-zero canonicity step for a fresh dot, as a statement about
input strings. -/
theorem canonDot (ci : List Char) (hne : ci ≠ []) (hnm : ('.' : Char) ∉ ci)
    (hhead : ci.head? = some '0' → ci = ['0'] ∨ ci.take 2 = ['0', '.']) :
    clampLength (ci ++ ['.']) ≠ [] ∧
    ((clampLength (ci ++ ['.'])).head? = some '0' →
      clampLength (ci ++ ['.']) = ['0'] ∨
      (clampLength (ci ++ ['.'])).take 2 = ['0', '.']) := by
  obtain ⟨c, t, hct⟩ := List.exists_cons_of_ne_nil hne
  by_cases hc : c = '0'
  · rcases hhead (by rw [hct, hc]; rfl) with h1 | h2
    · rw [h1]
      exact ⟨by decide, fun _ => by decide⟩
    · exfalso
      apply hnm
      refine (List.take_sublist 2 ci).subset ?_
      rw [h2]
      simp
  · rw [hct]
    obtain ⟨l2, hcl⟩ := clampLength_cons c (t ++ ['.'])
    rw [show (c :: t) ++ ['.'] = c :: (t ++ ['.']) from rfl, hcl]
    refine ⟨by simp, ?_⟩
    intro hh
    simp only [List.head?_cons, Option.some.injEq] at hh
    exact absurd hh hc

theorem c6_canon_step (s : CalcState) (e : Event) (hq : isDigitOrDot e = true)
    (hR : s.justEvaluated = false ∧ s.currentInput ≠ [] ∧
      (s.currentInput.head? = some '0' →
        s.currentInput = ['0'] ∨ s.currentInput.take 2 = ['0', '.'])) :
    (step s e).justEvaluated = false ∧ (step s e).currentInput ≠ [] ∧
      ((step s e).currentInput.head? = some '0' →
        (step s e).currentInput = ['0'] ∨ (step s e).currentInput.take 2 = ['0', '.']) := by
  obtain ⟨hje, hne, hhead⟩ := hR
  cases e with
  | digit d =>
      simp only [step]
      obtain ⟨hci, hje2⟩ := handleDigit_ci (digitChar d.val) s hje
      rw [hci]
      obtain ⟨h1, h2⟩ := canonDigit s.currentInput (digitChar d.val) hne hhead
      exact ⟨hje2, h1, h2⟩
  | dot =>
      simp only [step]
      rcases hcont : s.currentInput.contains '.' with _ | _
      · obtain ⟨hci, hje2⟩ := handleDot_no s hje hcont
        rw [hci]
        have hnm : ('.' : Char) ∉ s.currentInput := by simpa using hcont
        obtain ⟨h1, h2⟩ := canonDot s.currentInput hne hnm hhead
        exact ⟨hje2, h1, h2⟩
      · have hd : handleDot s = s := by
          unfold handleDot
          rw [hje, hcont]
          simp
        rw [hd]
        exact ⟨hje, hne, hhead⟩
  | op o => simp [isDigitOrDot] at hq
  | equals => simp [isDigitOrDot] at hq
  | clear => simp [isDigitOrDot] at hq
  | del => simp [isDigitOrDot] at hq
  | percent => simp [isDigitOrDot] at hq
  | sign => simp [isDigitOrDot] at hq

/-- C6 as amended: in every state reachable from the default state,
`currentInput` contains at most one decimal point; and after any sequence
of digit and dot events only, `currentInput` never begins with `'0'`
except as exactly `"0"` or with a `"0."` prefix.  (The leading-zero
canonicity does not extend to all events: `sign` after `delete` can
produce forms like `"07"`.) -/
theorem c6_amended :
    (∀ es : List Event, ((run es).currentInput.count '.') ≤ 1) ∧
    (∀ es : List Event, (∀ e ∈ es, isDigitOrDot e = true) →
      (run es).currentInput.head? = some '0' →
      (run es).currentInput = ['0'] ∨ (run es).currentInput.take 2 = ['0', '.']) := by
  constructor
  · intro es
    exact run_invariant (fun s => s.currentInput.count '.' ≤ 1) (by simp [initState])
      c6_count_step es
  · intro es hq
    exact (run_invariant_on (fun s => s.justEvaluated = false ∧ s.currentInput ≠ [] ∧
      (s.currentInput.head? = some '0' →
        s.currentInput = ['0'] ∨ s.currentInput.take 2 = ['0', '.']))
      isDigitOrDot ⟨rfl, by simp [initState], fun _ => Or.inl rfl⟩ c6_canon_step es hq).2.2

/-- Witness for C6's amendment at concrete sequences. -/
theorem c6_amended_witness :
    ((run [Event.sign]).currentInput.count '.') ≤ 1 ∧
    ((run [Event.dot, Event.digit 5]).currentInput = ['0'] ∨
      (run [Event.dot, Event.digit 5]).currentInput.take 2 = ['0', '.']) :=
  ⟨c6_amended.1 [Event.sign],
    c6_amended.2 [Event.dot, Event.digit 5] (by decide) (by decide)⟩
